import Mathlib

/-!
Verification of the tally time-tracking core.

This development gives a shallow embedding of the tally repository's core:
the data model (`internal/model/models.go`), the duration calculator
(`Entry.Duration`), the entry store operations (`internal/db/db.go`), the
CLI-level state machine (`internal/cli/{start,stop,pause,resume,log,delete}.go`
and the bulk-edit workflow), and the sleep-gap reconciler
(`sleep.CheckAndHandleSleep` / `parsePmsetLog`).

Conventions:
* Timestamps are `Int` seconds (Go `time.Time` values compare and subtract
  like integers; the zero value of `time.Time` is mapped to `0`).
* Durations are `Int` seconds; one minute is `60`.
* `time.Now()` is passed explicitly as a `now` parameter.
* SQL rows become list elements; a `nextId` counter stands for ULID
  generation (fresh, strictly increasing identifiers).
* Tag rows are keyed by unique name (`GetOrCreateTag` is get-or-create by
  name), so an entry's tag set is carried as the list of tag names.
-/

namespace Tally

/-- Entry status, `model.EntryStatus`: `running`, `paused`, `stopped`. -/
inductive EntryStatus
  | running
  | paused
  | stopped
  deriving DecidableEq, Repr

/-- A pause row, `model.Pause`.  `resumeTime = none` is an open pause. -/
structure Pause where
  id : Nat
  entryId : Nat
  pauseTime : Int
  resumeTime : Option Int
  reason : String
  deriving DecidableEq, Repr

/-- An entry row, `model.Entry`, carrying its pause rows (the `pauses` table
rows with this entry's id) and its tag names (the `entry_tags` rows). -/
structure Entry where
  id : Nat
  projectId : Nat
  title : String
  tags : List String
  startTime : Int
  endTime : Option Int
  status : EntryStatus
  pauses : List Pause
  deriving DecidableEq, Repr

/-- The deduction one iteration of the `Entry.Duration` loop applies for one
pause (models.go lines 57 to 64): a closed pause always deducts its length;
an open pause deducts `now - pause_time` only while the entry is paused. -/
def pauseDeduction (status : EntryStatus) (now : Int) (p : Pause) : Int :=
  match p.resumeTime with
  | some r => r - p.pauseTime
  | none => if status = .paused then now - p.pauseTime else 0

/-- `Entry.Duration` from models.go: `end_time` (or `now`) minus `start_time`,
then the loop subtracting each pause's deduction.  The Go code returns the
accumulated total as is; there is no clamping. -/
def Entry.duration (e : Entry) (now : Int) : Int :=
  let endv : Int :=
    match e.endTime with
    | some t => t
    | none => now
  e.pauses.foldl (fun total p => total - pauseDeduction e.status now p) (endv - e.startTime)

/-- Total length of the closed pauses in a list (open pauses contribute 0). -/
def closedPauseTotal (ps : List Pause) : Int :=
  (ps.map (fun p =>
    match p.resumeTime with
    | some r => r - p.pauseTime
    | none => 0)).sum

/-- Total `now - pause_time` deduction of the open pauses in a list (closed
pauses contribute 0). -/
def openPauseTotal (now : Int) (ps : List Pause) : Int :=
  (ps.map (fun p =>
    match p.resumeTime with
    | some _ => 0
    | none => now - p.pauseTime)).sum

/-- The spec's closed-form duration formula: `(end-or-now - start)` minus the
closed-pause lengths, minus the open-pause deduction when the entry is
Paused. -/
def specDuration (e : Entry) (now : Int) : Int :=
  let endv : Int :=
    match e.endTime with
    | some t => t
    | none => now
  (endv - e.startTime) - closedPauseTotal e.pauses -
    (if e.status = .paused then openPauseTotal now e.pauses else 0)

theorem foldl_sub_eq_sub_sum (d : Pause → Int) (ps : List Pause) (a : Int) :
    ps.foldl (fun total p => total - d p) a = a - (ps.map d).sum := by
  induction ps generalizing a with
  | nil => simp
  | cons p ps ih =>
      simp only [List.foldl_cons, List.map_cons, List.sum_cons, ih]
      ring

theorem deduction_sum_split (status : EntryStatus) (now : Int) (ps : List Pause) :
    (ps.map (pauseDeduction status now)).sum =
      closedPauseTotal ps + (if status = .paused then openPauseTotal now ps else 0) := by
  induction ps with
  | nil => simp [closedPauseTotal, openPauseTotal]
  | cons p ps ih =>
      simp only [List.map_cons, List.sum_cons, closedPauseTotal, openPauseTotal] at *
      cases h : p.resumeTime with
      | some r =>
          simp only [pauseDeduction, h, ih]
          split <;> ring
      | none =>
          simp only [pauseDeduction, h, ih]
          split <;> ring

/-- C2 counterexample entry: starts at 0, stops at 10, and carries one closed
pause of length 100 (inserted, say, by edit or historical insertion). -/
def overdeductedEntry : Entry :=
  { id := 1, projectId := 1, title := "", tags := [], startTime := 0,
    endTime := some 10, status := .stopped,
    pauses := [{ id := 2, entryId := 1, pauseTime := 0, resumeTime := some 100,
                 reason := "Manual" }] }

/-- C2 counterexample: the claim says the duration result is clamped below at
zero and is never negative, but `Entry.Duration` returns the raw total, which
is negative for `overdeductedEntry`: `(10 - 0) - 100 = -90`. -/
theorem duration_can_be_negative :
    Entry.duration overdeductedEntry 200 = -90 ∧ Entry.duration overdeductedEntry 200 < 0 := by
  constructor <;> decide

/-- C2 (amended): for every entry and reference time `now`, `Entry.Duration`
returns exactly `(end-or-now - start)` minus the length of every closed pause,
minus `(now - pause_time)` for each open pause when the entry is Paused; the
result is not clamped and may be negative. -/
theorem duration_eq_spec_formula (e : Entry) (now : Int) :
    Entry.duration e now = specDuration e now := by
  unfold Entry.duration specDuration
  rw [foldl_sub_eq_sub_sum (pauseDeduction e.status now), deduction_sum_split]
  ring

/-- A parsed gap-boundary event from the power log (`parsePmsetLog`'s local
`event` struct): `isStart` is true for sleep/display-off, false for
wake/display-on; `isSystem` is true for system sleep/wake, false for
display events. -/
structure Event where
  time : Int
  isStart : Bool
  isSystem : Bool
  deriving DecidableEq, Repr

/-- A detected sleep/wake cycle, `sleep.SleepPeriod`. -/
structure SleepPeriod where
  sleepTime : Int
  wakeTime : Int
  reason : String
  deriving DecidableEq, Repr

/-- The loop state of the pairing loop in `parsePmsetLog` (lines 155 to 157):
the periods built so far, the open gap start (if any), and its
classification. -/
structure PairState where
  periods : List SleepPeriod
  sleepStart : Option Int
  sleepIsSystem : Bool
  deriving DecidableEq, Repr

/-- One iteration of the pairing loop in `parsePmsetLog` (lines 159 to 187):
a start event opens a gap when none is open; a System start while a
Display gap is open upgrades the classification; an end event closes the
open gap, keeping it only when it lasted at least one minute. -/
def pairStep (st : PairState) (e : Event) : PairState :=
  if e.isStart then
    match st.sleepStart with
    | none => { st with sleepStart := some e.time, sleepIsSystem := e.isSystem }
    | some _ =>
        if e.isSystem && !st.sleepIsSystem then
          { st with sleepIsSystem := true }
        else
          st
  else
    match st.sleepStart with
    | some s0 =>
        let d := e.time - s0
        let reason := if st.sleepIsSystem then "System sleep" else "Display off"
        let periods :=
          if 60 ≤ d then
            st.periods ++ [{ sleepTime := s0, wakeTime := e.time, reason := reason }]
          else
            st.periods
        { periods := periods, sleepStart := none, sleepIsSystem := false }
    | none => st

/-- The pairing phase of `parsePmsetLog`: fold the loop body over the
chronological event list, starting with no open gap, and return the built
periods.  (The regex extraction of events from the textual `pmset -g log`
output is the platform-specific Gap Signal Source; the claims quantify over
the resulting event stream.) -/
def buildPeriods (events : List Event) : List SleepPeriod :=
  (events.foldl pairStep { periods := [], sleepStart := none, sleepIsSystem := false }).periods

/-- `lastPauseEnd` as computed in `CheckAndHandleSleep` (lines 47 to 52): the
latest `resume_time` among the entry's closed pauses, starting from the zero
time (0). -/
def lastPauseEnd (e : Entry) : Int :=
  e.pauses.foldl (fun acc p =>
    match p.resumeTime with
    | some r => if acc < r then r else acc
    | none => acc) 0

/-- The filter in `CheckAndHandleSleep` (lines 54 to 59): keep only the sleep
periods whose wake time is strictly after `lastPauseEnd`. -/
def unhandledSleep (e : Entry) (periods : List SleepPeriod) : List SleepPeriod :=
  periods.filter (fun sp => lastPauseEnd e < sp.wakeTime)

/-- The pause row `createPauseForSleep` inserts for a sleep period
(`pause_time = SleepTime`, `resume_time = WakeTime`).  The row id is a fresh
ULID in the code; it is irrelevant to the properties proved here, so 0
stands in. -/
def pauseForSleep (entryId : Nat) (sp : SleepPeriod) : Pause :=
  { id := 0, entryId := entryId, pauseTime := sp.sleepTime,
    resumeTime := some sp.wakeTime, reason := sp.reason }

/-- The pause rows `CheckAndHandleSleep` creates for an entry from a parsed
event stream: one closed pause per surviving sleep period. -/
def reconcilerPauses (e : Entry) (events : List Event) : List Pause :=
  (unhandledSleep e (buildPeriods events)).map (pauseForSleep e.id)

theorem pairStep_period_len (st : PairState) (e : Event)
    (h : ∀ sp ∈ st.periods, 60 ≤ sp.wakeTime - sp.sleepTime) :
    ∀ sp ∈ (pairStep st e).periods, 60 ≤ sp.wakeTime - sp.sleepTime := by
  intro sp hsp
  unfold pairStep at hsp
  cases hs : e.isStart with
  | true =>
      rw [hs] at hsp
      simp only [if_true] at hsp
      cases hst : st.sleepStart with
      | none => rw [hst] at hsp; exact h sp hsp
      | some s0 =>
          rw [hst] at hsp
          by_cases hc : (e.isSystem && !st.sleepIsSystem) = true
          · rw [if_pos hc] at hsp; exact h sp hsp
          · rw [if_neg hc] at hsp; exact h sp hsp
  | false =>
      rw [hs] at hsp
      simp only [Bool.false_eq_true, if_false] at hsp
      cases hst : st.sleepStart with
      | none => rw [hst] at hsp; exact h sp hsp
      | some s0 =>
          rw [hst] at hsp
          simp only at hsp
          by_cases hd : (60 : Int) ≤ e.time - s0
          · rw [if_pos hd] at hsp
            rcases List.mem_append.mp hsp with hmem | hmem
            · exact h sp hmem
            · simp only [List.mem_singleton] at hmem
              subst hmem
              simpa using hd
          · rw [if_neg hd] at hsp
            exact h sp hsp

theorem foldl_pairStep_period_len (events : List Event) (st : PairState)
    (h : ∀ sp ∈ st.periods, 60 ≤ sp.wakeTime - sp.sleepTime) :
    ∀ sp ∈ (events.foldl pairStep st).periods, 60 ≤ sp.wakeTime - sp.sleepTime := by
  induction events generalizing st with
  | nil => exact h
  | cons e events ih =>
      simp only [List.foldl_cons]
      exact ih (pairStep st e) (pairStep_period_len st e h)

theorem buildPeriods_min_length (events : List Event) :
    ∀ sp ∈ buildPeriods events, 60 ≤ sp.wakeTime - sp.sleepTime := by
  unfold buildPeriods
  exact foldl_pairStep_period_len events _ (by intro sp hsp; simp at hsp)

/-- C3: every pause the Gap Reconciler creates ends strictly after the latest
closed-pause `resume_time` of the entry and spans at least one minute; it
never creates a pause ending at or before that bound, nor one shorter than
one minute. -/
theorem reconciler_pause_bounds (e : Entry) (events : List Event) (p : Pause)
    (hp : p ∈ reconcilerPauses e events) :
    ∃ w, p.resumeTime = some w ∧ lastPauseEnd e < w ∧ 60 ≤ w - p.pauseTime := by
  unfold reconcilerPauses at hp
  rcases List.mem_map.mp hp with ⟨sp, hsp, hps⟩
  unfold unhandledSleep at hsp
  rcases List.mem_filter.mp hsp with ⟨hmem, hgt⟩
  refine ⟨sp.wakeTime, ?_, ?_, ?_⟩
  · rw [← hps]; rfl
  · exact of_decide_eq_true hgt
  · have := buildPeriods_min_length events sp hmem
    rw [← hps]
    simpa [pauseForSleep] using this

/-- C3 witness: a single system-sleep gap from 100 to 200 on a pause-free
entry yields one created pause, and the bounds hold for it. -/
theorem reconciler_pause_bounds_witness :
    ∃ w, (pauseForSleep 1 { sleepTime := 100, wakeTime := 200, reason := "System sleep" }).resumeTime = some w ∧
      lastPauseEnd { id := 1, projectId := 1, title := "", tags := [], startTime := 0,
                     endTime := none, status := .running, pauses := [] } < w ∧
      60 ≤ w - (pauseForSleep 1 { sleepTime := 100, wakeTime := 200, reason := "System sleep" }).pauseTime :=
  reconciler_pause_bounds
    { id := 1, projectId := 1, title := "", tags := [], startTime := 0,
      endTime := none, status := .running, pauses := [] }
    [{ time := 100, isStart := true, isSystem := true },
     { time := 200, isStart := false, isSystem := true }]
    (pauseForSleep 1 { sleepTime := 100, wakeTime := 200, reason := "System sleep" })
    (by decide)

/-- C7: while a gap is open, a System-classified gap-start upgrades a
Display-classified open interval to System (keeping its start); any
gap-start (in particular a Display one) arriving while a System-classified
gap is open leaves the state unchanged (never a downgrade); and a gap-end
event closes the open interval, emitting it (when at least a minute long)
with the classification held at close time. -/
theorem pairStep_classification (st : PairState) (e : Event) :
    (e.isStart = true → st.sleepStart.isSome = true → st.sleepIsSystem = false →
       e.isSystem = true →
       pairStep st e = { st with sleepIsSystem := true }) ∧
    (e.isStart = true → st.sleepStart.isSome = true → st.sleepIsSystem = true →
       pairStep st e = st) ∧
    (∀ s0, e.isStart = false → st.sleepStart = some s0 →
       (pairStep st e).sleepStart = none ∧
       (60 ≤ e.time - s0 →
         { sleepTime := s0, wakeTime := e.time,
           reason := if st.sleepIsSystem then "System sleep" else "Display off" } ∈
           (pairStep st e).periods)) := by
  refine ⟨?_, ?_, ?_⟩
  · intro hs hopen hcls hsys
    unfold pairStep
    rw [hs]
    simp only [if_true]
    cases hst : st.sleepStart with
    | none => rw [hst] at hopen; simp at hopen
    | some s0 =>
        have hc : (e.isSystem && !st.sleepIsSystem) = true := by
          rw [hsys, hcls]; rfl
        rw [if_pos hc]
  · intro hs hopen hcls
    unfold pairStep
    rw [hs]
    simp only [if_true]
    cases hst : st.sleepStart with
    | none => rw [hst] at hopen; simp at hopen
    | some s0 =>
        have hc : (e.isSystem && !st.sleepIsSystem) ≠ true := by
          rw [hcls]; simp
        rw [if_neg hc]
  · intro s0 hs hst
    unfold pairStep
    rw [hs]
    simp only [Bool.false_eq_true, if_false, hst]
    constructor
    · trivial
    · intro hd
      rw [if_pos hd]
      simp

/-- C7 witness: concrete upgrade (System start over an open Display gap),
no-downgrade (Display start over an open System gap), and close (gap-end
resets the open gap and emits the minute-long interval). -/
theorem pairStep_classification_witness :
    pairStep { periods := [], sleepStart := some 10, sleepIsSystem := false }
        { time := 20, isStart := true, isSystem := true } =
      { periods := [], sleepStart := some 10, sleepIsSystem := true } ∧
    pairStep { periods := [], sleepStart := some 10, sleepIsSystem := true }
        { time := 20, isStart := true, isSystem := false } =
      { periods := [], sleepStart := some 10, sleepIsSystem := true } ∧
    (pairStep { periods := [], sleepStart := some 10, sleepIsSystem := true }
        { time := 100, isStart := false, isSystem := false }).sleepStart = none ∧
    { sleepTime := 10, wakeTime := 100, reason := "System sleep" } ∈
      (pairStep { periods := [], sleepStart := some 10, sleepIsSystem := true }
        { time := 100, isStart := false, isSystem := false }).periods := by
  refine ⟨?_, ?_, ?_, ?_⟩
  · exact (pairStep_classification
      { periods := [], sleepStart := some 10, sleepIsSystem := false }
      { time := 20, isStart := true, isSystem := true }).1 rfl rfl rfl rfl
  · exact (pairStep_classification
      { periods := [], sleepStart := some 10, sleepIsSystem := true }
      { time := 20, isStart := true, isSystem := false }).2.1 rfl rfl rfl
  · exact ((pairStep_classification
      { periods := [], sleepStart := some 10, sleepIsSystem := true }
      { time := 100, isStart := false, isSystem := false }).2.2 10 rfl rfl).1
  · exact ((pairStep_classification
      { periods := [], sleepStart := some 10, sleepIsSystem := true }
      { time := 100, isStart := false, isSystem := false }).2.2 10 rfl rfl).2 (by decide)

/-- A project row (`model.Project`). -/
structure Project where
  id : Nat
  name : String
  deriving DecidableEq, Repr

/-- The persistent store: the `projects` and `entries` tables (entries embed
their pause and tag rows), plus a counter standing for fresh-ULID
generation. -/
structure Store where
  projects : List Project
  entries : List Entry
  nextId : Nat
  deriving DecidableEq, Repr

/-- The freshly initialised database: empty tables. -/
def initStore : Store := { projects := [], entries := [], nextId := 0 }

/-- `status IN ('running', 'paused')`: the entry is the active one. -/
def isActive (e : Entry) : Bool := e.status = .running || e.status = .paused

/-- `ORDER BY start_time DESC LIMIT 1` over a row list: the entry with the
latest start time (the earlier row on ties). -/
def pickLatest : List Entry → Option Entry
  | [] => none
  | e :: es =>
      match pickLatest es with
      | none => some e
      | some e2 => if e.startTime < e2.startTime then some e2 else some e

/-- `db.GetRunningEntry`: the most recent entry with status running or
paused, or none. -/
def getRunningEntry (s : Store) : Option Entry :=
  pickLatest (s.entries.filter isActive)

/-- `db.GetLastEntry`: the most recent entry overall, or none. -/
def getLastEntry (s : Store) : Option Entry :=
  pickLatest s.entries

/-- Modelled from the spec: `db.GetLastEntryForProject` is called by
`resumeProject` but its definition is not in the provided sources.  Spec
4.5: "find the most recent entry for `projectFilter` (any status)". -/
def getLastEntryForProject (pid : Nat) (s : Store) : Option Entry :=
  pickLatest (s.entries.filter (fun e => e.projectId == pid))

/-- `db.GetProjectByName`. -/
def getProjectByName (name : String) (s : Store) : Option Project :=
  s.projects.find? (fun p => p.name == name)

/-- `db.GetOrCreateProject`: return the existing row or insert a fresh one. -/
def getOrCreateProject (name : String) (s : Store) : Project × Store :=
  match getProjectByName name s with
  | some p => (p, s)
  | none =>
      let p : Project := { id := s.nextId, name := name }
      (p, { s with projects := p :: s.projects, nextId := s.nextId + 1 })

/-- `UPDATE ... WHERE id = tid` on the entries table (ids are primary keys). -/
def updateEntryById (tid : Nat) (f : Entry → Entry) (s : Store) : Store :=
  { s with entries := s.entries.map (fun e => if e.id = tid then f e else e) }

/-- `UPDATE pauses SET resume_time = now WHERE entry_id = ? AND resume_time
IS NULL`, restricted to one entry's embedded pauses. -/
def closeOpenPauses (now : Int) (e : Entry) : Entry :=
  { e with pauses := e.pauses.map (fun p =>
      match p.resumeTime with
      | none => { p with resumeTime := some now }
      | some _ => p) }

/-- First statement of `db.StopEntry` (its own autocommitted `DB.Exec`):
close any open pauses of the entry at `now`. -/
def stopEntryClosePauses (now : Int) (tid : Nat) (s : Store) : Store :=
  updateEntryById tid (closeOpenPauses now) s

/-- Second statement of `db.StopEntry` (its own autocommitted `DB.Exec`):
`UPDATE entries SET end_time = now, status = stopped WHERE id = tid`. -/
def stopEntrySetStopped (now : Int) (tid : Nat) (s : Store) : Store :=
  updateEntryById tid (fun e => { e with endTime := some now, status := .stopped }) s

/-- `db.StopEntry`: the two statements in order.  Unlike `PauseEntry`,
`ResumeEntry`, `CreateEntry` and `DeleteEntry`, `StopEntry` does not wrap
them in a transaction; each commits on its own. -/
def stopEntry (now : Int) (tid : Nat) (s : Store) : Store :=
  stopEntrySetStopped now tid (stopEntryClosePauses now tid s)

/-- The store states observable during a run of `db.StopEntry`: before it,
after the first statement committed (where the second may still fail), and
after both. -/
def stopEntryObservable (now : Int) (tid : Nat) (s : Store) : List Store :=
  [s, stopEntryClosePauses now tid s, stopEntry now tid s]

/-- `db.PauseEntry`: one transaction inserting an open pause row (fresh id,
`pause_time = now`) and setting the entry status to paused. -/
def pauseEntryDb (now : Int) (reason : String) (tid : Nat) (s : Store) : Store :=
  let p : Pause := { id := s.nextId, entryId := tid, pauseTime := now,
                     resumeTime := none, reason := reason }
  { updateEntryById tid (fun e => { e with pauses := e.pauses ++ [p], status := .paused }) s
      with nextId := s.nextId + 1 }

/-- `db.ResumeEntry`: one transaction closing the entry's open pauses at
`now` and setting the status to running. -/
def resumeEntryDb (now : Int) (tid : Nat) (s : Store) : Store :=
  updateEntryById tid (fun e => { closeOpenPauses now e with status := .running }) s

/-- `db.CreatePause`: insert a pause row with the given times and reason. -/
def createPauseDb (tid : Nat) (pt : Int) (rt : Option Int) (reason : String) (s : Store) : Store :=
  let p : Pause := { id := s.nextId, entryId := tid, pauseTime := pt,
                     resumeTime := rt, reason := reason }
  { updateEntryById tid (fun e => { e with pauses := e.pauses ++ [p] }) s
      with nextId := s.nextId + 1 }

/-- Modelled from the spec: `db.ReopenEntry` is called by the resume flows
but its definition is not in the provided sources.  Spec 4.1 `reopen`:
"clears `end_time`; sets `status=Running`" (the gap pause is created
separately by the caller). -/
def reopenEntryDb (tid : Nat) (s : Store) : Store :=
  updateEntryById tid (fun e => { e with endTime := none, status := .running }) s

/-- `db.UpdateEntry` applied to one entry row: project and title always set;
start and end both set when both are given; start alone when only start is
given; neither otherwise.  The tag associations are deleted and re-inserted
(full replacement) on every call.  The status column is never touched. -/
def updateEntryFields (pid : Nat) (title : String) (st et : Option Int)
    (tags : List String) (e : Entry) : Entry :=
  match st, et with
  | some s0, some e0 =>
      { e with projectId := pid, title := title, startTime := s0,
               endTime := some e0, tags := tags }
  | some s0, none =>
      { e with projectId := pid, title := title, startTime := s0, tags := tags }
  | none, _ =>
      { e with projectId := pid, title := title, tags := tags }

/-- `db.UpdateEntry` on the store. -/
def updateEntryDb (tid : Nat) (pid : Nat) (title : String) (st et : Option Int)
    (tags : List String) (s : Store) : Store :=
  updateEntryById tid (updateEntryFields pid title st et tags) s

/-- `db.DeleteEntry`: remove the entry row; its embedded pause and tag rows
go with it (the cascade of the Go transaction). -/
def deleteEntryDb (tid : Nat) (s : Store) : Store :=
  { s with entries := s.entries.filter (fun e => !(e.id == tid)) }

/-- Outcome reported by a CLI operation.  `conflictError`, `notFoundError`
and `validationError` are the spec's structured error kinds; the remaining
constructors are the success/notice outcomes the commands actually print. -/
inductive CmdResult
  | started
  | alreadyRunning
  | alreadyPaused
  | noTimer
  | pausedOk
  | pauseAdded
  | resumed
  | reopened
  | cancelled
  | stoppedOk
  | deleted
  | edited
  | validationError
  | notFoundError
  | conflictError
  deriving DecidableEq, Repr

/-- `runStart` (start.go): when an active entry exists, print its status and
return nil (no error, nothing created); otherwise get-or-create the project
and create a running entry at `now` with the given title and tags. -/
def startOp (projectName title : String) (tagNames : List String) (now : Int)
    (s : Store) : Store × CmdResult :=
  match getRunningEntry s with
  | some _ => (s, .alreadyRunning)
  | none =>
      let ps := getOrCreateProject projectName s
      let e : Entry := { id := ps.2.nextId, projectId := ps.1.id, title := title,
                         tags := tagNames, startTime := now, endTime := none,
                         status := .running, pauses := [] }
      ({ ps.2 with entries := e :: ps.2.entries, nextId := ps.2.nextId + 1 }, .started)

/-- `runPause` (pause.go) without `--from`: pause the active entry now;
notice when none is running or it is already paused. -/
def pauseNowOp (now : Int) (s : Store) : Store × CmdResult :=
  match getRunningEntry s with
  | none => (s, .noTimer)
  | some e =>
      if e.status = .paused then (s, .alreadyPaused)
      else (pauseEntryDb now "Manual" e.id s, .pausedOk)

/-- `runPause` (pause.go) with `--from` (and optional `--to`): historical
pause insertion.  It operates on the entry returned by `GetRunningEntry`;
with no active entry it prints "No timer running" and inserts nothing.
`--to` defaults to `now`.  `from` before the entry start or `to` before
`from` is rejected before any write. -/
def historicalPauseOp (fromTime : Int) (toArg : Option Int) (now : Int)
    (s : Store) : Store × CmdResult :=
  match getRunningEntry s with
  | none => (s, .noTimer)
  | some e =>
      if fromTime < e.startTime then (s, .validationError)
      else
        let toTime := toArg.getD now
        if toTime < fromTime then (s, .validationError)
        else (createPauseDb e.id fromTime (some toTime) "Manual" s, .pauseAdded)

/-- `reopenEntry` (log.go): on a stopped entry, after interactive
confirmation, create the gap pause from `end_time` to the resume time and
reopen the entry; a non-stopped entry or a refusal changes nothing. -/
def reopenFlow (le : Entry) (confirm : Bool) (at_ : Int) (s : Store) : Store × CmdResult :=
  if le.status ≠ .stopped then (s, .noTimer)
  else if confirm then
    let s1 :=
      match le.endTime with
      | some et => createPauseDb le.id et (some at_) "Manual" s
      | none => s
    (reopenEntryDb le.id s1, .reopened)
  else (s, .cancelled)

/-- `resumeDefault` (log.go): with an active entry, resume it in place
(notice when already running); otherwise reopen the most recent entry after
confirmation. -/
def resumeDefaultOp (confirm : Bool) (at_ : Int) (now : Int) (s : Store) : Store × CmdResult :=
  match getRunningEntry s with
  | some e =>
      if e.status = .running then (s, .alreadyRunning)
      else (resumeEntryDb now e.id s, .resumed)
  | none =>
      match getLastEntry s with
      | none => (s, .noTimer)
      | some le => reopenFlow le confirm at_ s

/-- Clone branch of `resumeProject` (log.go lines 320 to 348): copy the
project's most recent entry's title and tag set into a brand-new running
entry starting at `at`.  `db.CreateEntryAt` is not in the provided sources;
modelled from the spec: "create a brand-new entry for the same project with
the same title and tag set, `start_time = at`, `status = Running`". -/
def resumeCloneFlow (p : Project) (at_ : Int) (s : Store) : Store × CmdResult :=
  match getLastEntryForProject p.id s with
  | none => (s, .notFoundError)
  | some pe =>
      let e : Entry := { id := s.nextId, projectId := p.id, title := pe.title,
                         tags := pe.tags, startTime := at_, endTime := none,
                         status := .running, pauses := [] }
      ({ s with entries := e :: s.entries, nextId := s.nextId + 1 }, .resumed)

/-- The preliminary step of `resumeProject` (log.go lines 288 to 307): stop
the currently active entry, if any, via `db.StopEntry`. -/
def stopActive (now : Int) (s : Store) : Store :=
  match getRunningEntry s with
  | some r => stopEntry now r.id s
  | none => s

/-- `resumeProject` (log.go): resolve the project by name (error when
absent); stop any active entry; then reopen the most recent entry when it
already belongs to the project, else clone the project's most recent entry. -/
def resumeProjectOp (projectName : String) (confirm : Bool) (at_ : Int) (now : Int)
    (s : Store) : Store × CmdResult :=
  match getProjectByName projectName s with
  | none => (s, .notFoundError)
  | some p =>
      let s1 := stopActive now s
      match getLastEntry s1 with
      | some le =>
          if le.projectId = p.id then reopenFlow le confirm at_ s1
          else resumeCloneFlow p at_ s1
      | none => resumeCloneFlow p at_ s1

/-- `runStop` (stop.go): stop the active entry via `db.StopEntry`; notice
when none is active. -/
def stopOp (now : Int) (s : Store) : Store × CmdResult :=
  match getRunningEntry s with
  | none => (s, .noTimer)
  | some e => (stopEntry now e.id s, .stoppedOk)

/-- `runDelete` (delete.go): resolve the target (a given id must exist,
otherwise the most recent entry is taken), then delete after confirmation
(`--force` skips the prompt). -/
def deleteOp (target : Option Nat) (confirm : Bool) (s : Store) : Store × CmdResult :=
  match target with
  | some tid =>
      if s.entries.any (fun e => e.id == tid) then
        if confirm then (deleteEntryDb tid s, .deleted) else (s, .cancelled)
      else (s, .notFoundError)
  | none =>
      match getLastEntry s with
      | none => (s, .noTimer)
      | some le =>
          if confirm then (deleteEntryDb le.id s, .deleted) else (s, .cancelled)

/-- A submitted pause item of the bulk-edit JSON document (`editPause` in
edit.go, after time parsing): no id means create, an id means update; the
reason is kept only for creation, defaulting to "Manual" when empty. -/
structure PauseTarget where
  id : Option Nat
  pauseTime : Int
  resumeTime : Option Int
  reason : String
  deriving DecidableEq, Repr

/-- One iteration of the pause loop in `runEdit` (edit.go lines 249 to 281)
acting on the entry's pause rows and the fresh-id counter: an item without
an id inserts a new pause (`db.CreatePause`), an item with an id rewrites
that row's times (`db.UpdatePause`).  Neither call validates the time
ordering. -/
def applyPauseTarget (tid : Nat) (acc : List Pause × Nat) (t : PauseTarget) :
    List Pause × Nat :=
  match t.id with
  | none =>
      let reason := if t.reason = "" then "Manual" else t.reason
      (acc.1 ++ [{ id := acc.2, entryId := tid, pauseTime := t.pauseTime,
                   resumeTime := t.resumeTime, reason := reason }], acc.2 + 1)
  | some pid =>
      (acc.1.map (fun p =>
        if p.id = pid then { p with pauseTime := t.pauseTime, resumeTime := t.resumeTime }
        else p), acc.2)

/-- The pause reconciliation of `runEdit` (edit.go lines 241 to 290): apply
every submitted item, then delete each of the entry's pre-edit pauses whose
id is absent from the submitted list. -/
def reconcilePauses (tid : Nat) (existing : List Pause) (targets : List PauseTarget)
    (nid : Nat) : List Pause × Nat :=
  let upd := targets.foldl (applyPauseTarget tid) (existing, nid)
  let keptIds := targets.filterMap PauseTarget.id
  (upd.1.filter (fun p => !(existing.any (fun q => q.id == p.id)) || keptIds.contains p.id),
   upd.2)

/-- The write phase of `runEdit` (edit.go) on a resolved entry: reject
`end_time` before `start_time` (nothing written), else get-or-create the
project, replace the entry row and tag set via `db.UpdateEntry` (the parsed
`start_time` is always passed), and reconcile the pause rows. -/
def editApplyCore (tid : Nat) (entryPauses : List Pause) (projectName title : String)
    (st : Int) (et : Option Int) (tagNames : List String)
    (targets : List PauseTarget) (s : Store) : Store × CmdResult :=
  let ps := getOrCreateProject projectName s
  let s2 := updateEntryDb tid ps.1.id title (some st) et tagNames ps.2
  let rec2 := reconcilePauses tid entryPauses targets s2.nextId
  ({ updateEntryById tid (fun e => { e with pauses := rec2.1 }) s2 with nextId := rec2.2 },
   .edited)

/-- `runEdit` (edit.go): resolve the entry (given id, else most recent),
validate the submitted times, and apply the edit. -/
def editOp (target : Option Nat) (projectName title : String) (st : Int)
    (et : Option Int) (tagNames : List String) (targets : List PauseTarget)
    (s : Store) : Store × CmdResult :=
  let tid? : Option Nat :=
    match target with
    | some tid => if s.entries.any (fun e => e.id == tid) then some tid else none
    | none => (getLastEntry s).map Entry.id
  match tid? with
  | none =>
      match target with
      | some _ => (s, .notFoundError)
      | none => (s, .noTimer)
  | some tid =>
      match s.entries.find? (fun e => e.id == tid) with
      | none => (s, .notFoundError)
      | some entry =>
          match et with
          | some e0 =>
              if e0 < st then (s, .validationError)
              else editApplyCore tid entry.pauses projectName title st et tagNames targets s
          | none => editApplyCore tid entry.pauses projectName title st none tagNames targets s

/-- The store states reachable by sequentially executing the exposed
operations from a fresh database: start, pause (now or historical), resume
(in place, reopen, or project clone-resume), stop, delete, and bulk edit. -/
inductive Reachable : Store → Prop
  | init : Reachable initStore
  | start (s : Store) (pn title : String) (tags : List String) (now : Int) :
      Reachable s → Reachable (startOp pn title tags now s).1
  | pauseNow (s : Store) (now : Int) :
      Reachable s → Reachable (pauseNowOp now s).1
  | historicalPause (s : Store) (f : Int) (t : Option Int) (now : Int) :
      Reachable s → Reachable (historicalPauseOp f t now s).1
  | resumeDefault (s : Store) (c : Bool) (at_ now : Int) :
      Reachable s → Reachable (resumeDefaultOp c at_ now s).1
  | resumeProject (s : Store) (pn : String) (c : Bool) (at_ now : Int) :
      Reachable s → Reachable (resumeProjectOp pn c at_ now s).1
  | stop (s : Store) (now : Int) :
      Reachable s → Reachable (stopOp now s).1
  | delete (s : Store) (t : Option Nat) (c : Bool) :
      Reachable s → Reachable (deleteOp t c s).1
  | edit (s : Store) (t : Option Nat) (pn title : String) (st : Int)
      (et : Option Int) (tags : List String) (targets : List PauseTarget) :
      Reachable s → Reachable (editOp t pn title st et tags targets s).1

/-- Number of active (running or paused) entries in a row list. -/
def countActive (l : List Entry) : Nat := l.countP (fun e => isActive e)

/-- Well-formedness carried through every operation: entry ids are below the
fresh-id counter, entry ids are pairwise distinct, and at most one entry is
active. -/
def WF (s : Store) : Prop :=
  (∀ e ∈ s.entries, e.id < s.nextId) ∧ (s.entries.map Entry.id).Nodup ∧
    countActive s.entries ≤ 1

theorem pickLatest_mem {l : List Entry} {e : Entry} (h : pickLatest l = some e) :
    e ∈ l := by
  induction l with
  | nil => simp [pickLatest] at h
  | cons a l ih =>
      unfold pickLatest at h
      cases hl : pickLatest l with
      | none =>
          rw [hl] at h
          injection h with h
          exact h ▸ List.mem_cons_self a l
      | some e2 =>
          rw [hl] at h
          dsimp only at h
          by_cases hlt : a.startTime < e2.startTime
          · rw [if_pos hlt] at h
            injection h with h
            subst h
            exact List.mem_cons_of_mem a (ih hl)
          · rw [if_neg hlt] at h
            injection h with h
            exact h ▸ List.mem_cons_self a l

theorem pickLatest_none_iff {l : List Entry} : pickLatest l = none ↔ l = [] := by
  constructor
  · intro h
    cases l with
    | nil => rfl
    | cons a l =>
        unfold pickLatest at h
        cases hl : pickLatest l with
        | none => rw [hl] at h; exact absurd h (by simp)
        | some e2 =>
            rw [hl] at h
            dsimp only at h
            by_cases hlt : a.startTime < e2.startTime
            · rw [if_pos hlt] at h; exact absurd h (by simp)
            · rw [if_neg hlt] at h; exact absurd h (by simp)
  · intro h; subst h; rfl

theorem getRunningEntry_some {s : Store} {e : Entry} (h : getRunningEntry s = some e) :
    e ∈ s.entries ∧ isActive e = true := by
  have hmem := pickLatest_mem h
  exact ⟨(List.mem_filter.mp hmem).1, (List.mem_filter.mp hmem).2⟩

theorem getRunningEntry_none_inactive {s : Store} (h : getRunningEntry s = none) :
    ∀ e ∈ s.entries, isActive e = false := by
  intro e he
  have hfil : s.entries.filter isActive = [] := pickLatest_none_iff.mp h
  by_contra hact
  have : e ∈ s.entries.filter isActive :=
    List.mem_filter.mpr ⟨he, by revert hact; cases isActive e <;> simp⟩
  rw [hfil] at this
  exact absurd this (List.not_mem_nil e)

theorem countActive_eq_zero_iff {l : List Entry} :
    countActive l = 0 ↔ ∀ e ∈ l, isActive e = false := by
  unfold countActive
  rw [List.countP_eq_zero]
  constructor
  · intro h e he
    have := h e he
    revert this; cases isActive e <;> simp
  · intro h e he
    rw [h e he]; simp

theorem countActive_zero_of_no_running {s : Store} (h : getRunningEntry s = none) :
    countActive s.entries = 0 :=
  countActive_eq_zero_iff.mpr (getRunningEntry_none_inactive h)

theorem countP_map_le (p q : Entry → Bool) (f : Entry → Entry) (l : List Entry)
    (h : ∀ e ∈ l, p (f e) = true → q e = true) :
    (l.map f).countP p ≤ l.countP q := by
  induction l with
  | nil => simp
  | cons a l ih =>
      have ih2 := ih (fun x hx px => h x (List.mem_cons_of_mem a hx) px)
      simp only [List.map_cons, List.countP_cons]
      by_cases hp : p (f a) = true
      · have hq := h a (List.mem_cons_self a l) hp
        rw [hp, hq]
        simp only [if_true]
        omega
      · rw [Bool.not_eq_true] at hp
        rw [hp]
        simp only [Bool.false_eq_true, if_false, add_zero]
        have : (if q a = true then 1 else 0) ≥ 0 := Nat.zero_le _
        omega

theorem countP_map_eq (p : Entry → Bool) (f : Entry → Entry) (l : List Entry)
    (h : ∀ e ∈ l, p (f e) = p e) :
    (l.map f).countP p = l.countP p := by
  induction l with
  | nil => simp
  | cons a l ih =>
      have ih2 := ih (fun x hx => h x (List.mem_cons_of_mem a hx))
      simp only [List.map_cons, List.countP_cons, ih2, h a (List.mem_cons_self a l)]

theorem two_le_countP {l : List Entry} {e1 e2 : Entry} {p : Entry → Bool}
    (h1 : e1 ∈ l) (h2 : e2 ∈ l) (hne : e1 ≠ e2)
    (hp1 : p e1 = true) (hp2 : p e2 = true) : 2 ≤ l.countP p := by
  induction l with
  | nil => exact absurd h1 (List.not_mem_nil e1)
  | cons a l ih =>
      rw [List.countP_cons]
      rcases List.mem_cons.mp h1 with h1a | h1l
      · subst h1a
        have h2l : e2 ∈ l := by
          rcases List.mem_cons.mp h2 with h2a | h2l
          · exact absurd h2a.symm hne
          · exact h2l
        have : 0 < l.countP p := List.countP_pos_iff.mpr ⟨e2, h2l, hp2⟩
        rw [if_pos hp1]
        omega
      · rcases List.mem_cons.mp h2 with h2a | h2l
        · subst h2a
          have : 0 < l.countP p := List.countP_pos_iff.mpr ⟨e1, h1l, hp1⟩
          rw [if_pos hp2]
          omega
        · have := ih h1l h2l
          omega

theorem active_unique {l : List Entry} {e0 : Entry}
    (hcnt : countActive l ≤ 1) (h0 : e0 ∈ l) (ha0 : isActive e0 = true) :
    ∀ e ∈ l, isActive e = true → e = e0 := by
  intro e he hae
  by_contra hne
  have := two_le_countP (p := fun x => isActive x) he h0 hne hae ha0
  unfold countActive at hcnt
  omega

theorem eq_of_mem_of_nodup_ids {l : List Entry} {e1 e2 : Entry}
    (hnd : (l.map Entry.id).Nodup) (h1 : e1 ∈ l) (h2 : e2 ∈ l)
    (hid : e1.id = e2.id) : e1 = e2 := by
  induction l with
  | nil => exact absurd h1 (List.not_mem_nil e1)
  | cons a l ih =>
      rw [List.map_cons, List.nodup_cons] at hnd
      rcases List.mem_cons.mp h1 with h1a | h1l
      · subst h1a
        rcases List.mem_cons.mp h2 with h2a | h2l
        · exact h2a.symm
        · exact absurd (hid ▸ List.mem_map_of_mem Entry.id h2l) hnd.1
      · rcases List.mem_cons.mp h2 with h2a | h2l
        · subst h2a
          exact absurd (hid ▸ List.mem_map_of_mem Entry.id h1l) hnd.1
        · exact ih hnd.2 h1l h2l

theorem countP_id_le_one {l : List Entry} (tid : Nat)
    (hnd : (l.map Entry.id).Nodup) :
    l.countP (fun e => e.id == tid) ≤ 1 := by
  induction l with
  | nil => simp
  | cons a l ih =>
      rw [List.map_cons, List.nodup_cons] at hnd
      rw [List.countP_cons]
      by_cases ha : a.id = tid
      · have hz : l.countP (fun e => e.id == tid) = 0 := by
          rw [List.countP_eq_zero]
          intro e he
          simp only [beq_iff_eq]
          intro hid
          exact hnd.1 ((ha ▸ hid : e.id = a.id) ▸ List.mem_map_of_mem Entry.id he)
        simp only [hz, ha, beq_self_eq_true, if_true]
        omega
      · have := ih hnd.2
        simp only [beq_iff_eq, ha, if_false]
        omega

theorem updateEntryById_ids (tid : Nat) (f : Entry → Entry) (s : Store)
    (hf : ∀ e, (f e).id = e.id) :
    (updateEntryById tid f s).entries.map Entry.id = s.entries.map Entry.id := by
  unfold updateEntryById
  rw [List.map_map]
  apply List.map_congr_left
  intro e _
  by_cases he : e.id = tid
  · simp only [Function.comp_apply, he, if_pos, hf]
  · simp only [Function.comp_apply, he, if_neg, not_false_iff]

theorem updateEntryById_bound (tid : Nat) (f : Entry → Entry) (s : Store)
    (hf : ∀ e, (f e).id = e.id) (h : ∀ e ∈ s.entries, e.id < s.nextId) :
    ∀ e ∈ (updateEntryById tid f s).entries, e.id < s.nextId := by
  intro e he
  unfold updateEntryById at he
  rcases List.mem_map.mp he with ⟨x, hx, hxe⟩
  by_cases hxid : x.id = tid
  · rw [if_pos hxid] at hxe
    rw [← hxe, hf]
    exact h x hx
  · rw [if_neg hxid] at hxe
    rw [← hxe]
    exact h x hx

theorem countActive_update_le (tid : Nat) (f : Entry → Entry) (s : Store)
    (hnd : (s.entries.map Entry.id).Nodup)
    (e0 : Entry) (h0 : e0 ∈ s.entries) (h0id : e0.id = tid) (h0a : isActive e0 = true) :
    countActive (updateEntryById tid f s).entries ≤ countActive s.entries := by
  unfold countActive updateEntryById
  apply countP_map_le
  intro e he hact
  by_cases hid : e.id = tid
  · have : e = e0 := eq_of_mem_of_nodup_ids hnd he h0 (by rw [hid, h0id])
    rw [this]
    exact h0a
  · rw [if_neg hid] at hact
    exact hact

theorem countActive_update_pointwise (tid : Nat) (f : Entry → Entry) (s : Store)
    (hf : ∀ e, isActive (f e) = isActive e) :
    countActive (updateEntryById tid f s).entries = countActive s.entries := by
  unfold countActive updateEntryById
  apply countP_map_eq
  intro e _
  by_cases hid : e.id = tid
  · rw [if_pos hid, hf]
  · rw [if_neg hid]

theorem countActive_update_of_zero (tid : Nat) (f : Entry → Entry) (s : Store)
    (hz : countActive s.entries = 0) (hnd : (s.entries.map Entry.id).Nodup) :
    countActive (updateEntryById tid f s).entries ≤ 1 := by
  unfold countActive updateEntryById
  calc (s.entries.map (fun e => if e.id = tid then f e else e)).countP (fun e => isActive e)
      ≤ s.entries.countP (fun e => e.id == tid) := by
        apply countP_map_le
        intro e he hact
        by_cases hid : e.id = tid
        · simp [hid]
        · rw [if_neg hid] at hact
          have := countActive_eq_zero_iff.mp hz e he
          rw [hact] at this
          exact absurd this (by simp)
    _ ≤ 1 := countP_id_le_one tid hnd

theorem WF_updateById_keep (tid : Nat) (f : Entry → Entry) (s : Store) (h : WF s)
    (hf : ∀ e, (f e).id = e.id)
    (hcnt : countActive (updateEntryById tid f s).entries ≤ 1) :
    WF (updateEntryById tid f s) := by
  obtain ⟨hb, hnd, _⟩ := h
  exact ⟨updateEntryById_bound tid f s hf hb,
         by rw [updateEntryById_ids tid f s hf]; exact hnd, hcnt⟩

theorem getOrCreateProject_entries (name : String) (s : Store) :
    (getOrCreateProject name s).2.entries = s.entries := by
  unfold getOrCreateProject
  cases getProjectByName name s <;> rfl

theorem getOrCreateProject_nextId_le (name : String) (s : Store) :
    s.nextId ≤ (getOrCreateProject name s).2.nextId := by
  unfold getOrCreateProject
  cases getProjectByName name s with
  | none => exact Nat.le_succ _
  | some p => exact Nat.le_refl _

theorem WF_consNew (s : Store) (h : WF s) (hzero : countActive s.entries = 0)
    (e : Entry) (hid : e.id = s.nextId) (hact : isActive e = true) :
    WF { s with entries := e :: s.entries, nextId := s.nextId + 1 } := by
  obtain ⟨hb, hnd, _⟩ := h
  refine ⟨?_, ?_, ?_⟩
  · intro x hx
    dsimp only at hx ⊢
    rcases List.mem_cons.mp hx with hx | hx
    · rw [hx, hid]; omega
    · have := hb x hx; omega
  · dsimp only
    rw [List.map_cons, List.nodup_cons]
    constructor
    · intro hmem
      rcases List.mem_map.mp hmem with ⟨y, hy, hyid⟩
      have := hb y hy
      omega
    · exact hnd
  · unfold countActive at hzero ⊢
    dsimp only
    rw [List.countP_cons, if_pos hact]
    omega

theorem stopEntry_entries (now : Int) (tid : Nat) (s : Store) :
    (stopEntry now tid s).entries = s.entries.map (fun e =>
      if e.id = tid then
        { closeOpenPauses now e with endTime := some now, status := .stopped }
      else e) := by
  unfold stopEntry stopEntrySetStopped stopEntryClosePauses updateEntryById
  rw [List.map_map]
  apply List.map_congr_left
  intro e _
  by_cases he : e.id = tid
  · simp only [Function.comp_apply, if_pos he]
    have hcid : (closeOpenPauses now e).id = tid := he
    rw [if_pos hcid]
  · simp only [Function.comp_apply, if_neg he]

theorem stopEntry_countActive_zero (now : Int) (tid : Nat) (s : Store) (h : WF s)
    (e0 : Entry) (h0 : e0 ∈ s.entries) (h0id : e0.id = tid) (h0a : isActive e0 = true) :
    countActive (stopEntry now tid s).entries = 0 := by
  obtain ⟨_, _, hcnt⟩ := h
  rw [stopEntry_entries]
  apply countActive_eq_zero_iff.mpr
  intro e he
  rcases List.mem_map.mp he with ⟨x, hx, hxe⟩
  by_cases hid : x.id = tid
  · rw [if_pos hid] at hxe
    rw [← hxe]
    rfl
  · rw [if_neg hid] at hxe
    subst hxe
    by_contra hact
    rw [Bool.not_eq_false] at hact
    have := active_unique hcnt h0 h0a x hx hact
    exact hid (this ▸ h0id)

theorem stopEntry_ids (now : Int) (tid : Nat) (s : Store) :
    (stopEntry now tid s).entries.map Entry.id = s.entries.map Entry.id := by
  rw [stopEntry_entries, List.map_map]
  apply List.map_congr_left
  intro e _
  by_cases he : e.id = tid
  · simp only [Function.comp_apply, if_pos he]; rfl
  · simp only [Function.comp_apply, if_neg he]

theorem stopEntry_nextId (now : Int) (tid : Nat) (s : Store) :
    (stopEntry now tid s).nextId = s.nextId := rfl

theorem WF_stopEntry (now : Int) (tid : Nat) (s : Store) (h : WF s)
    (e0 : Entry) (h0 : e0 ∈ s.entries) (h0id : e0.id = tid) (h0a : isActive e0 = true) :
    WF (stopEntry now tid s) := by
  refine ⟨?_, ?_, ?_⟩
  · intro e he
    rw [stopEntry_entries] at he
    rcases List.mem_map.mp he with ⟨x, hx, hxe⟩
    rw [stopEntry_nextId]
    by_cases hid : x.id = tid
    · rw [if_pos hid] at hxe
      rw [← hxe]
      exact h.1 x hx
    · rw [if_neg hid] at hxe
      rw [← hxe]
      exact h.1 x hx
  · rw [stopEntry_ids]
    exact h.2.1
  · rw [stopEntry_countActive_zero now tid s h e0 h0 h0id h0a]
    omega

theorem WF_bumpNextId (s : Store) (n : Nat) (h : WF s) (hn : s.nextId ≤ n) :
    WF { s with nextId := n } := by
  obtain ⟨hb, hnd, hc⟩ := h
  exact ⟨fun e he => lt_of_lt_of_le (hb e he) hn, hnd, hc⟩

theorem WF_getOrCreateProject (name : String) (s : Store) (h : WF s) :
    WF (getOrCreateProject name s).2 := by
  obtain ⟨hb, hnd, hc⟩ := h
  refine ⟨?_, ?_, ?_⟩
  · rw [getOrCreateProject_entries]
    intro e he
    exact lt_of_lt_of_le (hb e he) (getOrCreateProject_nextId_le name s)
  · rw [getOrCreateProject_entries]
    exact hnd
  · rw [getOrCreateProject_entries]
    exact hc

theorem WF_startOp (pn title : String) (tags : List String) (now : Int) (s : Store)
    (h : WF s) : WF (startOp pn title tags now s).1 := by
  unfold startOp
  cases hr : getRunningEntry s with
  | some e => exact h
  | none =>
      dsimp only
      apply WF_consNew
      · exact WF_getOrCreateProject pn s h
      · rw [getOrCreateProject_entries]
        exact countActive_zero_of_no_running hr
      · rfl
      · rfl

theorem WF_pauseNowOp (now : Int) (s : Store) (h : WF s) : WF (pauseNowOp now s).1 := by
  unfold pauseNowOp
  cases hr : getRunningEntry s with
  | none => exact h
  | some e =>
      dsimp only
      by_cases hp : e.status = .paused
      · rw [if_pos hp]
        exact h
      · rw [if_neg hp]
        dsimp only
        unfold pauseEntryDb
        obtain ⟨hmem, hact⟩ := getRunningEntry_some hr
        apply WF_bumpNextId
        · apply WF_updateById_keep _ _ _ h
          · exact fun x => rfl
          · exact le_trans
              (countActive_update_le e.id _ s h.2.1 e hmem rfl hact) h.2.2
        · exact Nat.le_succ s.nextId

theorem WF_historicalPauseOp (f : Int) (t : Option Int) (now : Int) (s : Store)
    (h : WF s) : WF (historicalPauseOp f t now s).1 := by
  unfold historicalPauseOp
  cases hr : getRunningEntry s with
  | none => exact h
  | some e =>
      dsimp only
      by_cases hv : f < e.startTime
      · rw [if_pos hv]
        exact h
      · rw [if_neg hv]
        by_cases hv2 : (t.getD now) < f
        · rw [if_pos hv2]
          exact h
        · rw [if_neg hv2]
          unfold createPauseDb
          apply WF_bumpNextId
          · apply WF_updateById_keep _ _ _ h
            · exact fun x => rfl
            · rw [countActive_update_pointwise]
              · exact h.2.2
              · exact fun x => rfl
          · exact Nat.le_succ s.nextId

theorem WF_createPauseDb (tid : Nat) (pt : Int) (rt : Option Int) (r : String)
    (s : Store) (h : WF s) : WF (createPauseDb tid pt rt r s) := by
  unfold createPauseDb
  apply WF_bumpNextId
  · apply WF_updateById_keep _ _ _ h
    · exact fun x => rfl
    · rw [countActive_update_pointwise]
      · exact h.2.2
      · exact fun x => rfl
  · exact Nat.le_succ s.nextId

theorem createPauseDb_countActive (tid : Nat) (pt : Int) (rt : Option Int) (r : String)
    (s : Store) :
    countActive (createPauseDb tid pt rt r s).entries = countActive s.entries := by
  unfold createPauseDb
  exact countActive_update_pointwise tid _ s (fun x => rfl)

theorem WF_reopenOnZero (tid : Nat) (s : Store) (h : WF s)
    (hz : countActive s.entries = 0) : WF (reopenEntryDb tid s) := by
  unfold reopenEntryDb
  apply WF_updateById_keep _ _ _ h
  · exact fun x => rfl
  · exact countActive_update_of_zero tid _ s hz h.2.1

theorem WF_reopenFlow (le : Entry) (confirm : Bool) (at_ : Int) (s : Store)
    (h : WF s) (hz : countActive s.entries = 0) : WF (reopenFlow le confirm at_ s).1 := by
  unfold reopenFlow
  by_cases h1 : le.status ≠ .stopped
  · rw [if_pos h1]
    exact h
  · rw [if_neg h1]
    by_cases hcf : confirm = true
    · rw [if_pos hcf]
      dsimp only
      cases het : le.endTime with
      | some et =>
          apply WF_reopenOnZero
          · exact WF_createPauseDb _ _ _ _ _ h
          · rw [createPauseDb_countActive]
            exact hz
      | none =>
          exact WF_reopenOnZero le.id s h hz
    · rw [if_neg hcf]
      exact h

theorem WF_resumeDefaultOp (c : Bool) (at_ now : Int) (s : Store) (h : WF s) :
    WF (resumeDefaultOp c at_ now s).1 := by
  unfold resumeDefaultOp
  cases hr : getRunningEntry s with
  | some e =>
      dsimp only
      by_cases hst : e.status = .running
      · rw [if_pos hst]
        exact h
      · rw [if_neg hst]
        dsimp only
        obtain ⟨hmem, hact⟩ := getRunningEntry_some hr
        unfold resumeEntryDb
        apply WF_updateById_keep _ _ _ h
        · exact fun x => rfl
        · exact le_trans
            (countActive_update_le e.id _ s h.2.1 e hmem rfl hact) h.2.2
  | none =>
      dsimp only
      cases hl : getLastEntry s with
      | none => exact h
      | some le =>
          dsimp only
          exact WF_reopenFlow le c at_ s h (countActive_zero_of_no_running hr)

theorem WF_resumeCloneFlow (p : Project) (at_ : Int) (s : Store) (h : WF s)
    (hz : countActive s.entries = 0) : WF (resumeCloneFlow p at_ s).1 := by
  unfold resumeCloneFlow
  cases hpe : getLastEntryForProject p.id s with
  | none => exact h
  | some pe =>
      dsimp only
      exact WF_consNew s h hz _ rfl rfl

theorem WF_resumeProjectOp (pn : String) (c : Bool) (at_ now : Int) (s : Store)
    (h : WF s) : WF (resumeProjectOp pn c at_ now s).1 := by
  unfold resumeProjectOp
  cases hp : getProjectByName pn s with
  | none => exact h
  | some p =>
      dsimp only
      have hwf1 : WF (stopActive now s) := by
        unfold stopActive
        cases hr : getRunningEntry s with
        | some r =>
            obtain ⟨hmem, hact⟩ := getRunningEntry_some hr
            exact WF_stopEntry now r.id s h r hmem rfl hact
        | none => exact h
      have hz1 : countActive (stopActive now s).entries = 0 := by
        unfold stopActive
        cases hr : getRunningEntry s with
        | some r =>
            obtain ⟨hmem, hact⟩ := getRunningEntry_some hr
            exact stopEntry_countActive_zero now r.id s h r hmem rfl hact
        | none => exact countActive_zero_of_no_running hr
      cases hl : getLastEntry (stopActive now s) with
      | none => exact WF_resumeCloneFlow p at_ _ hwf1 hz1
      | some le =>
          dsimp only
          by_cases hple : le.projectId = p.id
          · rw [if_pos hple]
            exact WF_reopenFlow le c at_ _ hwf1 hz1
          · rw [if_neg hple]
            exact WF_resumeCloneFlow p at_ _ hwf1 hz1

theorem WF_stopOp (now : Int) (s : Store) (h : WF s) : WF (stopOp now s).1 := by
  unfold stopOp
  cases hr : getRunningEntry s with
  | none => exact h
  | some e =>
      obtain ⟨hmem, hact⟩ := getRunningEntry_some hr
      exact WF_stopEntry now e.id s h e hmem rfl hact

theorem WF_deleteEntryDb (tid : Nat) (s : Store) (h : WF s) :
    WF (deleteEntryDb tid s) := by
  obtain ⟨hb, hnd, hc⟩ := h
  unfold deleteEntryDb
  refine ⟨?_, ?_, ?_⟩
  · intro e he
    dsimp only at he ⊢
    exact hb e (List.mem_of_mem_filter he)
  · dsimp only
    exact List.Nodup.sublist (List.Sublist.map Entry.id (List.filter_sublist _)) hnd
  · unfold countActive at hc ⊢
    dsimp only
    exact le_trans (List.Sublist.countP_le _ (List.filter_sublist _)) hc

theorem WF_deleteOp (t : Option Nat) (c : Bool) (s : Store) (h : WF s) :
    WF (deleteOp t c s).1 := by
  unfold deleteOp
  cases t with
  | some tid =>
      dsimp only
      by_cases hex : s.entries.any (fun e => e.id == tid) = true
      · rw [if_pos hex]
        by_cases hc2 : c = true
        · rw [if_pos hc2]
          exact WF_deleteEntryDb tid s h
        · rw [if_neg hc2]
          exact h
      · rw [if_neg hex]
        exact h
  | none =>
      dsimp only
      cases hl : getLastEntry s with
      | none => exact h
      | some le =>
          dsimp only
          by_cases hc2 : c = true
          · rw [if_pos hc2]
            exact WF_deleteEntryDb le.id s h
          · rw [if_neg hc2]
            exact h

theorem updateEntryFields_id (pid : Nat) (title : String) (st et : Option Int)
    (tags : List String) (e : Entry) :
    (updateEntryFields pid title st et tags e).id = e.id := by
  unfold updateEntryFields
  cases st <;> cases et <;> rfl

theorem updateEntryFields_status (pid : Nat) (title : String) (st et : Option Int)
    (tags : List String) (e : Entry) :
    (updateEntryFields pid title st et tags e).status = e.status := by
  unfold updateEntryFields
  cases st <;> cases et <;> rfl

theorem WF_updateEntryDb (tid pid : Nat) (title : String) (st et : Option Int)
    (tags : List String) (s : Store) (h : WF s) :
    WF (updateEntryDb tid pid title st et tags s) := by
  unfold updateEntryDb
  apply WF_updateById_keep _ _ _ h
  · exact fun x => updateEntryFields_id pid title st et tags x
  · rw [countActive_update_pointwise]
    · exact h.2.2
    · intro x
      unfold isActive
      rw [updateEntryFields_status]

theorem applyPauseTarget_nid_le (tid : Nat) (acc : List Pause × Nat) (t : PauseTarget) :
    acc.2 ≤ (applyPauseTarget tid acc t).2 := by
  unfold applyPauseTarget
  cases t.id with
  | none => exact Nat.le_succ _
  | some pid => exact Nat.le_refl _

theorem foldl_applyPauseTarget_nid_le (tid : Nat) (targets : List PauseTarget)
    (acc : List Pause × Nat) :
    acc.2 ≤ (targets.foldl (applyPauseTarget tid) acc).2 := by
  induction targets generalizing acc with
  | nil => exact Nat.le_refl _
  | cons t ts ih =>
      rw [List.foldl_cons]
      exact le_trans (applyPauseTarget_nid_le tid acc t) (ih (applyPauseTarget tid acc t))

theorem reconcilePauses_nid_le (tid : Nat) (ex : List Pause) (ts : List PauseTarget)
    (n : Nat) : n ≤ (reconcilePauses tid ex ts n).2 := by
  unfold reconcilePauses
  exact foldl_applyPauseTarget_nid_le tid ts (ex, n)

theorem WF_editApplyCore (tid : Nat) (entryPauses : List Pause) (pn title : String)
    (st : Int) (et : Option Int) (tags : List String) (targets : List PauseTarget)
    (s : Store) (h : WF s) :
    WF (editApplyCore tid entryPauses pn title st et tags targets s).1 := by
  unfold editApplyCore
  dsimp only
  have h1 : WF (getOrCreateProject pn s).2 := WF_getOrCreateProject pn s h
  have h2 : WF (updateEntryDb tid (getOrCreateProject pn s).1.id title (some st) et tags
      (getOrCreateProject pn s).2) := WF_updateEntryDb _ _ _ _ _ _ _ h1
  apply WF_bumpNextId
  · apply WF_updateById_keep _ _ _ h2
    · exact fun x => rfl
    · rw [countActive_update_pointwise]
      · exact h2.2.2
      · exact fun x => rfl
  · exact reconcilePauses_nid_le tid entryPauses targets _

theorem WF_editOp (t : Option Nat) (pn title : String) (st : Int) (et : Option Int)
    (tags : List String) (targets : List PauseTarget) (s : Store) (h : WF s) :
    WF (editOp t pn title st et tags targets s).1 := by
  unfold editOp
  dsimp only
  repeat' split
  all_goals first
    | exact h
    | exact WF_editApplyCore _ _ _ _ _ _ _ _ _ h

theorem WF_initStore : WF initStore := by
  refine ⟨?_, ?_, ?_⟩ <;> simp [initStore, countActive]

theorem WF_reachable (s : Store) (h : Reachable s) : WF s := by
  induction h with
  | init => exact WF_initStore
  | start s pn title tags now _ ih => exact WF_startOp pn title tags now s ih
  | pauseNow s now _ ih => exact WF_pauseNowOp now s ih
  | historicalPause s f t now _ ih => exact WF_historicalPauseOp f t now s ih
  | resumeDefault s c at_ now _ ih => exact WF_resumeDefaultOp c at_ now s ih
  | resumeProject s pn c at_ now _ ih => exact WF_resumeProjectOp pn c at_ now s ih
  | stop s now _ ih => exact WF_stopOp now s ih
  | delete s t c _ ih => exact WF_deleteOp t c s ih
  | edit s t pn title st et tags targets _ ih =>
      exact WF_editOp t pn title st et tags targets s ih

/-- C1: in every store state reachable by sequentially executing the exposed
operations (start, pause, resume in place, reopen, clone-resume, stop,
delete, edit) from a fresh database, at most one entry has status Running or
Paused. -/
theorem singleton_active_invariant (s : Store) (h : Reachable s) :
    countActive s.entries ≤ 1 :=
  (WF_reachable s h).2.2

/-- C1 witness: the invariant holds for the concrete reachable state obtained
by starting a timer on a fresh database and pausing it. -/
theorem singleton_active_invariant_witness :
    countActive (pauseNowOp 20 (startOp "work" "" [] 10 initStore).1).1.entries ≤ 1 :=
  singleton_active_invariant _
    (Reachable.pauseNow _ 20 (Reachable.start initStore "work" "" [] 10 Reachable.init))

/-- A store with one running entry (id 1, project "work" id 0, started at 10),
obtained by running `start` on a fresh database. -/
def runningFixture : Store := (startOp "work" "" [] 10 initStore).1

/-- `runningFixture` after `pause` at 20: entry 1 is Paused with one open
pause (id 2, pause_time 20). -/
def pausedFixture : Store := (pauseNowOp 20 runningFixture).1

/-- `runningFixture` after `stop` at 30: entry 1 is Stopped. -/
def stoppedFixture : Store := (stopOp 30 runningFixture).1

/-- C4 counterexample: invoking `start` while an active entry exists does
not fail with `ConflictError` — it reports the running timer and returns
success (nil error), and creates nothing. -/
theorem start_conflict_counterexample :
    (startOp "other" "" [] 20 runningFixture).2 = CmdResult.alreadyRunning ∧
    (startOp "other" "" [] 20 runningFixture).1 = runningFixture ∧
    CmdResult.alreadyRunning ≠ CmdResult.conflictError := by
  refine ⟨by decide, by decide, by decide⟩

/-- C4 (amended): when an active entry exists, `start` performs no mutation
and reports the already-running timer as a success notice (returning a nil
error rather than a `ConflictError`); when no active entry exists it creates
a new entry with status Running and `start_time = now`, with the requested
title, tags and project. -/
theorem startOp_spec (pn title : String) (tags : List String) (now : Int) (s : Store) :
    (∀ e, getRunningEntry s = some e →
        startOp pn title tags now s = (s, CmdResult.alreadyRunning)) ∧
    (getRunningEntry s = none →
        (startOp pn title tags now s).2 = CmdResult.started ∧
        (startOp pn title tags now s).1.entries =
          { id := (getOrCreateProject pn s).2.nextId,
            projectId := (getOrCreateProject pn s).1.id, title := title,
            tags := tags, startTime := now, endTime := none,
            status := .running, pauses := [] } :: (getOrCreateProject pn s).2.entries) := by
  constructor
  · intro e he
    unfold startOp
    rw [he]
  · intro he
    unfold startOp
    rw [he]
    exact ⟨rfl, rfl⟩

/-- C4 witness: on a fresh database `start` creates the running entry, and a
second `start` leaves the store untouched with the already-running notice. -/
theorem startOp_spec_witness :
    (startOp "work" "" [] 10 initStore).2 = CmdResult.started ∧
    startOp "other" "" [] 20 runningFixture = (runningFixture, CmdResult.alreadyRunning) := by
  constructor
  · exact ((startOp_spec "work" "" [] 10 initStore).2 (by decide)).1
  · exact (startOp_spec "other" "" [] 20 runningFixture).1
      { id := 1, projectId := 0, title := "", tags := [], startTime := 10,
        endTime := none, status := .running, pauses := [] } (by decide)

/-- C10: on every entry-update call, project, title and the tag set are
replaced while id, status and the pause rows are untouched; the stored times
change only as follows: with no start time supplied, both `start_time` and
`end_time` are left unchanged (in particular a call supplying an end time
but no start time changes neither); with a start time but no end time, only
`start_time` is written; `end_time` is written exactly when both are
supplied. -/
theorem updateEntry_frame (pid : Nat) (title : String) (st et : Option Int)
    (tags : List String) (e : Entry) :
    ((updateEntryFields pid title st et tags e).projectId = pid ∧
     (updateEntryFields pid title st et tags e).title = title ∧
     (updateEntryFields pid title st et tags e).tags = tags ∧
     (updateEntryFields pid title st et tags e).id = e.id ∧
     (updateEntryFields pid title st et tags e).status = e.status ∧
     (updateEntryFields pid title st et tags e).pauses = e.pauses) ∧
    (st = none →
      (updateEntryFields pid title st et tags e).startTime = e.startTime ∧
      (updateEntryFields pid title st et tags e).endTime = e.endTime) ∧
    (∀ s0, st = some s0 → et = none →
      (updateEntryFields pid title st et tags e).startTime = s0 ∧
      (updateEntryFields pid title st et tags e).endTime = e.endTime) ∧
    (∀ s0 e0, st = some s0 → et = some e0 →
      (updateEntryFields pid title st et tags e).startTime = s0 ∧
      (updateEntryFields pid title st et tags e).endTime = some e0) := by
  refine ⟨?_, ?_, ?_, ?_⟩
  · cases st <;> cases et <;> exact ⟨rfl, rfl, rfl, rfl, rfl, rfl⟩
  · intro h
    subst h
    cases et <;> exact ⟨rfl, rfl⟩
  · intro s0 h1 h2
    subst h1
    subst h2
    exact ⟨rfl, rfl⟩
  · intro s0 e0 h1 h2
    subst h1
    subst h2
    exact ⟨rfl, rfl⟩

/-- C10 witness: a call supplying an end time (99) but no start time leaves
both stored times of the concrete entry unchanged while replacing project,
title and tags. -/
theorem updateEntry_frame_witness :
    (updateEntryFields 7 "t" none (some 99) ["x"]
        { id := 1, projectId := 0, title := "", tags := [], startTime := 10,
          endTime := some 20, status := .stopped, pauses := [] }).startTime = 10 ∧
    (updateEntryFields 7 "t" none (some 99) ["x"]
        { id := 1, projectId := 0, title := "", tags := [], startTime := 10,
          endTime := some 20, status := .stopped, pauses := [] }).endTime = some 20 ∧
    (updateEntryFields 7 "t" none (some 99) ["x"]
        { id := 1, projectId := 0, title := "", tags := [], startTime := 10,
          endTime := some 20, status := .stopped, pauses := [] }).projectId = 7 := by
  refine ⟨?_, ?_, ?_⟩
  · exact ((updateEntry_frame 7 "t" none (some 99) ["x"]
      { id := 1, projectId := 0, title := "", tags := [], startTime := 10,
        endTime := some 20, status := .stopped, pauses := [] }).2.1 rfl).1
  · exact ((updateEntry_frame 7 "t" none (some 99) ["x"]
      { id := 1, projectId := 0, title := "", tags := [], startTime := 10,
        endTime := some 20, status := .stopped, pauses := [] }).2.1 rfl).2
  · exact (updateEntry_frame 7 "t" none (some 99) ["x"]
      { id := 1, projectId := 0, title := "", tags := [], startTime := 10,
        endTime := some 20, status := .stopped, pauses := [] }).1.1

/-- C9 counterexample: with only a Stopped entry in the store (started at
10, stopped at 30), historical pause insertion with valid times (from 15 to
25, both at or after `start_time` and ordered) inserts nothing and reports
"No timer running": the operation does require the entry to be active,
contrary to the claim that it succeeds regardless of status. -/
theorem historical_pause_requires_active_counterexample :
    (∃ e ∈ stoppedFixture.entries, e.id = 1 ∧ e.status = .stopped ∧
        e.startTime ≤ 15 ∧ e.pauses = []) ∧
    historicalPauseOp 15 (some 25) 40 stoppedFixture =
      (stoppedFixture, CmdResult.noTimer) ∧
    (∀ e ∈ (historicalPauseOp 15 (some 25) 40 stoppedFixture).1.entries,
        e.pauses = []) := by
  refine ⟨by decide, by decide, by decide⟩

/-- C9 (amended): historical pause insertion acts on the current active
entry only.  With no active entry (for instance when the entry of interest
is Stopped) nothing is inserted and the command reports "no timer running".
For the active entry — whether Running or Paused — a request with `from ≥
start_time` and `to ≥ from` creates one closed pause `[from, to]` and leaves
the status (and every other entry field) unchanged; `from < start_time` or
`to < from` fail with a validation error before any write. -/
theorem historicalPauseOp_spec (f : Int) (t : Option Int) (now : Int) (s : Store) :
    (getRunningEntry s = none →
        historicalPauseOp f t now s = (s, CmdResult.noTimer)) ∧
    (∀ e, getRunningEntry s = some e →
      (f < e.startTime →
          historicalPauseOp f t now s = (s, CmdResult.validationError)) ∧
      (¬ f < e.startTime → t.getD now < f →
          historicalPauseOp f t now s = (s, CmdResult.validationError)) ∧
      (¬ f < e.startTime → ¬ t.getD now < f →
          (historicalPauseOp f t now s).2 = CmdResult.pauseAdded ∧
          (historicalPauseOp f t now s).1.entries = s.entries.map (fun x =>
            if x.id = e.id then
              { x with pauses := x.pauses ++
                  [{ id := s.nextId, entryId := e.id, pauseTime := f,
                     resumeTime := some (t.getD now), reason := "Manual" }] }
            else x))) := by
  constructor
  · intro he
    unfold historicalPauseOp
    rw [he]
  · intro e he
    refine ⟨?_, ?_, ?_⟩
    · intro hv
      unfold historicalPauseOp
      rw [he]
      dsimp only
      rw [if_pos hv]
    · intro hv hv2
      unfold historicalPauseOp
      rw [he]
      dsimp only
      rw [if_neg hv, if_pos hv2]
    · intro hv hv2
      unfold historicalPauseOp
      rw [he]
      dsimp only
      rw [if_neg hv, if_neg hv2]
      exact ⟨rfl, rfl⟩

/-- C9 witness: on the running fixture (entry started at 10), inserting a
historical pause from 12 to 18 succeeds and appends the closed pause. -/
theorem historicalPauseOp_spec_witness :
    (historicalPauseOp 12 (some 18) 40 runningFixture).2 = CmdResult.pauseAdded ∧
    historicalPauseOp 5 (some 18) 40 runningFixture =
      (runningFixture, CmdResult.validationError) := by
  constructor
  · exact (((historicalPauseOp_spec 12 (some 18) 40 runningFixture).2
      { id := 1, projectId := 0, title := "", tags := [], startTime := 10,
        endTime := none, status := .running, pauses := [] }
      (by decide)).2.2 (by decide) (by decide)).1
  · exact ((historicalPauseOp_spec 5 (some 18) 40 runningFixture).2
      { id := 1, projectId := 0, title := "", tags := [], startTime := 10,
        endTime := none, status := .running, pauses := [] }
      (by decide)).1 (by decide)

/-- C8 counterexample: the bulk-edit path accepts a submitted pause whose
`resume_time` (50) is earlier than its `pause_time` (100): the edit reports
success and the inverted pause row is written to the store, with no
validation error and no rejection. -/
theorem pause_validation_counterexample :
    (editOp (some 1) "work" "" 10 none []
        [{ id := none, pauseTime := 100, resumeTime := some 50, reason := "" }]
        runningFixture).2 = CmdResult.edited ∧
    (∃ e ∈ (editOp (some 1) "work" "" 10 none []
        [{ id := none, pauseTime := 100, resumeTime := some 50, reason := "" }]
        runningFixture).1.entries,
      e.id = 1 ∧ ∃ p ∈ e.pauses, p.pauseTime = 100 ∧ p.resumeTime = some 50) ∧
    (50 : Int) < 100 := by
  refine ⟨by decide, by decide, by decide⟩

/-- C8 (amended): only the historical pause insertion path validates the
time ordering — with the active entry present, a request whose end time is
earlier than its start time fails with a validation error and writes
nothing — while the bulk-edit write phase performs no such validation and
always reports success, writing the submitted pause times as given. -/
theorem pause_order_validation_spec (s : Store) (e : Entry) (f toT now : Int)
    (h : getRunningEntry s = some e) (hlt : toT < f) :
    historicalPauseOp f (some toT) now s = (s, CmdResult.validationError) ∧
    (∀ tid ep pn title st et tags targets,
        (editApplyCore tid ep pn title st et tags targets s).2 = CmdResult.edited) := by
  constructor
  · unfold historicalPauseOp
    rw [h]
    dsimp only
    by_cases hv : f < e.startTime
    · rw [if_pos hv]
    · rw [if_neg hv, if_pos (show (some toT).getD now < f from hlt)]
  · intro tid ep pn title st et tags targets
    rfl

/-- C8 witness: on the running fixture, a historical pause request ending
(15) before it starts (20) is rejected with a validation error. -/
theorem pause_order_validation_spec_witness :
    historicalPauseOp 20 (some 15) 40 runningFixture =
      (runningFixture, CmdResult.validationError) :=
  (pause_order_validation_spec runningFixture
    { id := 1, projectId := 0, title := "", tags := [], startTime := 10,
      endTime := none, status := .running, pauses := [] }
    20 15 40 (by decide) (by decide)).1

/-- C5 counterexample: `db.StopEntry` issues its two writes as separate
autocommitted statements, so the state after only the first one is an
observable store state (it is what remains if the second `DB.Exec` fails).
On the paused fixture (entry 1 Paused with one open pause) that intermediate
state has the pause closed while the entry is neither Stopped nor carries an
`end_time` — exactly the state the claim rules out. -/
theorem stop_not_atomic_counterexample :
    stopEntryClosePauses 40 1 pausedFixture ∈ stopEntryObservable 40 1 pausedFixture ∧
    stopEntryClosePauses 40 1 pausedFixture ≠ stopEntry 40 1 pausedFixture ∧
    (∃ e ∈ (stopEntryClosePauses 40 1 pausedFixture).entries,
      e.id = 1 ∧ e.status = .paused ∧ e.endTime = none ∧
      ∃ p ∈ e.pauses, p.resumeTime = some 40) := by
  refine ⟨by decide, by decide, by decide⟩

/-- C5 (amended): for the active entry, `stop` closes every open pause at
`now` and sets `end_time = now` and status Stopped; however the pause
closing and the entry update are two separately committed statements rather
than one transaction, so the intermediate state (pauses closed, entry not
yet stopped) is observable when the second statement fails.  This theorem
proves the final-state behavior of a completed `stop`. -/
theorem stopOp_spec (now : Int) (s : Store) (e : Entry)
    (h : getRunningEntry s = some e) :
    (stopOp now s).2 = CmdResult.stoppedOk ∧
    (stopOp now s).1.entries = s.entries.map (fun x =>
        if x.id = e.id then
          { closeOpenPauses now x with endTime := some now, status := .stopped }
        else x) ∧
    (∀ x : Entry, ∀ p ∈ (closeOpenPauses now x).pauses, p.resumeTime ≠ none) := by
  refine ⟨?_, ?_, ?_⟩
  · unfold stopOp
    rw [h]
  · unfold stopOp
    rw [h]
    exact stopEntry_entries now e.id s
  · intro x p hp
    unfold closeOpenPauses at hp
    rcases List.mem_map.mp hp with ⟨q, _, hq⟩
    cases hr : q.resumeTime with
    | none =>
        rw [hr] at hq
        rw [← hq]
        simp
    | some r =>
        rw [hr] at hq
        rw [← hq, hr]
        simp

/-- C5 witness: stopping the paused fixture at 40 reports success; in the
result the entry is Stopped with `end_time = 40` and its open pause closed
at 40. -/
theorem stopOp_spec_witness :
    (stopOp 40 pausedFixture).2 = CmdResult.stoppedOk ∧
    (∃ e ∈ (stopOp 40 pausedFixture).1.entries,
      e.id = 1 ∧ e.status = .stopped ∧ e.endTime = some 40 ∧
      ∃ p ∈ e.pauses, p.resumeTime = some 40) := by
  constructor
  · exact (stopOp_spec 40 pausedFixture
      { id := 1, projectId := 0, title := "", tags := [], startTime := 10,
        endTime := none, status := .paused,
        pauses := [{ id := 2, entryId := 1, pauseTime := 20, resumeTime := none,
                     reason := "Manual" }] } (by decide)).1
  · have h2 := (stopOp_spec 40 pausedFixture
      { id := 1, projectId := 0, title := "", tags := [], startTime := 10,
        endTime := none, status := .paused,
        pauses := [{ id := 2, entryId := 1, pauseTime := 20, resumeTime := none,
                     reason := "Manual" }] } (by decide)).2.1
    rw [h2]
    decide

/-- The per-row effect of `db.StopEntry` on the entries table: the target
row gets its open pauses closed, `end_time = now` and status Stopped; other
rows are untouched. -/
def stopMark (now : Int) (tid : Nat) (e : Entry) : Entry :=
  if e.id = tid then
    { closeOpenPauses now e with endTime := some now, status := .stopped }
  else e

theorem stopEntry_entries_mark (now : Int) (tid : Nat) (s : Store) :
    (stopEntry now tid s).entries = s.entries.map (stopMark now tid) :=
  stopEntry_entries now tid s

theorem stopMark_startTime (now : Int) (tid : Nat) (e : Entry) :
    (stopMark now tid e).startTime = e.startTime := by
  unfold stopMark
  by_cases h : e.id = tid
  · rw [if_pos h]
    rfl
  · rw [if_neg h]

theorem stopMark_projectId (now : Int) (tid : Nat) (e : Entry) :
    (stopMark now tid e).projectId = e.projectId := by
  unfold stopMark
  by_cases h : e.id = tid
  · rw [if_pos h]
    rfl
  · rw [if_neg h]

theorem pickLatest_map (g : Entry → Entry) (hg : ∀ e, (g e).startTime = e.startTime)
    (l : List Entry) : pickLatest (l.map g) = (pickLatest l).map g := by
  induction l with
  | nil => rfl
  | cons a l ih =>
      rw [List.map_cons]
      unfold pickLatest
      rw [ih]
      cases hl : pickLatest l with
      | none => rfl
      | some e2 =>
          dsimp only [Option.map]
          rw [hg a, hg e2]
          by_cases hlt : a.startTime < e2.startTime
          · rw [if_pos hlt, if_pos hlt]
          · rw [if_neg hlt, if_neg hlt]

theorem getLastEntry_stopEntry (now : Int) (tid : Nat) (s : Store) :
    getLastEntry (stopEntry now tid s) = (getLastEntry s).map (stopMark now tid) := by
  unfold getLastEntry
  rw [stopEntry_entries_mark]
  exact pickLatest_map _ (stopMark_startTime now tid) _

theorem getLastEntryForProject_stopEntry (now : Int) (tid pid : Nat) (s : Store) :
    getLastEntryForProject pid (stopEntry now tid s) =
      (getLastEntryForProject pid s).map (stopMark now tid) := by
  unfold getLastEntryForProject
  rw [stopEntry_entries_mark, List.filter_map]
  have hcong : ((fun e => e.projectId == pid) ∘ stopMark now tid) =
      (fun e => e.projectId == pid) := by
    funext e
    simp only [Function.comp_apply, stopMark_projectId]
  rw [hcong]
  exact pickLatest_map _ (stopMark_startTime now tid) _

theorem getLastEntryForProject_some (pid : Nat) (s : Store) (pe : Entry)
    (h : getLastEntryForProject pid s = some pe) :
    pe ∈ s.entries ∧ pe.projectId = pid := by
  have hmem := pickLatest_mem h
  rcases List.mem_filter.mp hmem with ⟨h1, h2⟩
  exact ⟨h1, by simpa using h2⟩

/-- C6 (amended): for a resume invocation with a project filter, when the
most recent entry overall does not belong to that project and the active
entry (if any) does not belong to it either: if the store has no entry for
the project, the operation fails with a not-found error (the preliminary
stop of the active entry having taken effect); otherwise a brand-new entry
is created for the project with the same title and tag set as the project's
most recent entry, `start_time` equal to the requested time and status
Running, and that source entry survives the operation entirely unchanged —
in particular, no pause is added to it.  (When the active entry itself
belongs to the project, it is first stopped and is therefore modified;
see the counterexample.) -/
theorem resumeProject_clone_spec (pn : String) (c : Bool) (at_ now : Int) (s : Store)
    (p : Project) (hwf : WF s)
    (hp : getProjectByName pn s = some p)
    (hlast : ∀ le, getLastEntry s = some le → le.projectId ≠ p.id)
    (hactive : ∀ r, getRunningEntry s = some r → r.projectId ≠ p.id) :
    (getLastEntryForProject p.id s = none →
        resumeProjectOp pn c at_ now s = (stopActive now s, CmdResult.notFoundError)) ∧
    (∀ pe, getLastEntryForProject p.id s = some pe →
        (resumeProjectOp pn c at_ now s).2 = CmdResult.resumed ∧
        (resumeProjectOp pn c at_ now s).1.entries =
          { id := (stopActive now s).nextId, projectId := p.id, title := pe.title,
            tags := pe.tags, startTime := at_, endTime := none, status := .running,
            pauses := [] } :: (stopActive now s).entries ∧
        pe ∈ (stopActive now s).entries ∧
        pe ∈ (resumeProjectOp pn c at_ now s).1.entries) := by
  unfold resumeProjectOp
  rw [hp]
  dsimp only
  cases hr : getRunningEntry s with
  | none =>
      have hs1 : stopActive now s = s := by unfold stopActive; rw [hr]
      rw [hs1]
      cases hls : getLastEntry s with
      | none =>
          have hnil : s.entries = [] := pickLatest_none_iff.mp hls
          dsimp only
          unfold resumeCloneFlow
          constructor
          · intro hnone
            rw [hnone]
          · intro pe hsome
            have := (getLastEntryForProject_some p.id s pe hsome).1
            rw [hnil] at this
            exact absurd this (List.not_mem_nil pe)
      | some le =>
          have hnotp := hlast le hls
          dsimp only
          rw [if_neg hnotp]
          unfold resumeCloneFlow
          constructor
          · intro hnone
            rw [hnone]
          · intro pe hsome
            rw [hsome]
            dsimp only
            refine ⟨rfl, rfl, ?_, ?_⟩
            · exact (getLastEntryForProject_some p.id s pe hsome).1
            · exact List.mem_cons_of_mem _ ((getLastEntryForProject_some p.id s pe hsome).1)
  | some r =>
      have hs1 : stopActive now s = stopEntry now r.id s := by unfold stopActive; rw [hr]
      obtain ⟨hrmem, _⟩ := getRunningEntry_some hr
      have hrne : r.projectId ≠ p.id := hactive r hr
      rw [hs1]
      cases hls : getLastEntry s with
      | none =>
          have hnil : s.entries = [] := pickLatest_none_iff.mp hls
          rw [hnil] at hrmem
          exact absurd hrmem (List.not_mem_nil r)
      | some le =>
          have hnotp := hlast le hls
          have hls1 : getLastEntry (stopEntry now r.id s) =
              some (stopMark now r.id le) := by
            rw [getLastEntry_stopEntry, hls]
            rfl
          rw [hls1]
          dsimp only
          rw [if_neg (by rw [stopMark_projectId]; exact hnotp)]
          unfold resumeCloneFlow
          constructor
          · intro hnone
            rw [getLastEntryForProject_stopEntry, hnone]
            rfl
          · intro pe hsome
            obtain ⟨hpemem, hpepid⟩ := getLastEntryForProject_some p.id s pe hsome
            have hpene : pe.id ≠ r.id := by
              intro hid
              have : pe = r := eq_of_mem_of_nodup_ids hwf.2.1 hpemem hrmem hid
              rw [this] at hpepid
              exact hrne hpepid
            have hmark : stopMark now r.id pe = pe := by
              unfold stopMark
              rw [if_neg hpene]
            have hsome1 : getLastEntryForProject p.id (stopEntry now r.id s) = some pe := by
              rw [getLastEntryForProject_stopEntry, hsome]
              dsimp only [Option.map]
              rw [hmark]
            rw [hsome1]
            dsimp only
            have hpes1 : pe ∈ (stopEntry now r.id s).entries := by
              rw [stopEntry_entries_mark]
              exact List.mem_map.mpr ⟨pe, hpemem, hmark⟩
            exact ⟨rfl, rfl, hpes1, List.mem_cons_of_mem _ hpes1⟩

/-- Store for the C6 witness: project "p" has a stopped entry (id 1, title
"t", tag "a"), project "q" has a more recent stopped entry (id 3); nothing
is active. -/
def projectsFixture : Store :=
  (stopOp 40 (startOp "q" "" [] 30 (stopOp 20 (startOp "p" "t" ["a"] 10 initStore).1).1).1).1

/-- C6 witness: `resume @p` on `projectsFixture` (most recent entry overall
belongs to "q") clones the "p" entry into a new running entry and reports
success. -/
theorem resumeProject_clone_spec_witness :
    (resumeProjectOp "p" true 50 50 projectsFixture).2 = CmdResult.resumed := by
  have h := (resumeProject_clone_spec "p" true 50 50 projectsFixture
    { id := 0, name := "p" }
    (by unfold WF; exact ⟨by decide, by decide, by decide⟩)
    (by decide)
    (by
      intro le hle
      have hB : getLastEntry projectsFixture =
          some { id := 3, projectId := 2, title := "", tags := [], startTime := 30,
                 endTime := some 40, status := .stopped, pauses := [] } := by decide
      rw [hB] at hle
      injection hle with hle
      rw [← hle]
      decide)
    (by
      intro r hrr
      have hN : getRunningEntry projectsFixture = none := by decide
      rw [hN] at hrr
      exact Option.noConfusion hrr)).2
    { id := 1, projectId := 0, title := "t", tags := ["a"], startTime := 10,
      endTime := some 20, status := .stopped, pauses := [] }
    (by decide)
  exact h.1

/-- Store for the C6 counterexample, built by the exposed operations: entry
1 (project "q", started 100, stopped), entry 3 (project "p") reopened and
then edited so its start time (50) lies before entry 1's: entry 3 is the
active entry and belongs to "p", yet the most recent entry overall is entry
1 of project "q". -/
def skewedFixture : Store :=
  (editOp (some 3) "p" "" 50 none [] []
    (resumeDefaultOp true 260 260
      (stopOp 250
        (startOp "p" "" [] 200
          (stopOp 150
            (startOp "q" "" [] 100 initStore).1).1).1).1).1).1

/-- C6 counterexample: on `skewedFixture` the most recent entry overall
belongs to project "q" (id 0), not "p" (id 2), and an entry for "p" exists
(entry 3, Running, no `end_time`), so the claim requires the clone path to
leave that source entry entirely unchanged; but `resume @p` first stops the
active entry — which is entry 3 itself — so the source entry ends up
Stopped with `end_time = 300`.  (No pause is added to it.) -/
theorem clone_resume_source_changed_counterexample :
    ((getLastEntry skewedFixture).map Entry.projectId = some 0 ∧ (0 : Nat) ≠ 2) ∧
    (getProjectByName "p" skewedFixture).map Project.id = some 2 ∧
    (∃ b ∈ skewedFixture.entries,
        b.id = 3 ∧ b.projectId = 2 ∧ b.endTime = none ∧ b.status = .running) ∧
    (getLastEntryForProject 2 skewedFixture).map Entry.id = some 3 ∧
    (∃ b2 ∈ (resumeProjectOp "p" true 300 300 skewedFixture).1.entries,
        b2.id = 3 ∧ b2.endTime = some 300 ∧ b2.status = .stopped ∧ b2.pauses = []) ∧
    (resumeProjectOp "p" true 300 300 skewedFixture).2 = CmdResult.resumed := by
  refine ⟨by decide, by decide, by decide, by decide, by decide, by decide⟩
